import Mathlib

/-!
Verification of the concurrency/durability core of the python_logger_system
repository against its natural-language specification.

The development shallowly embeds the relevant Python modules:

* `MMap`  — logger_module/safety/mmap_buffer.py   (MMapLogBuffer)
* `WAL`   — logger_module/safety/wal_critical_writer.py (WALCriticalWriter)
* `Eng`   — logger_module/core/logger.py          (Logger.log / _write_batch)
* `Sig`   — logger_module/safety/signal_manager.py (SignalManager)
* `ABW`   — logger_module/writers/batch_writer.py (AdaptiveBatchWriter)

Files are byte arrays (`List Nat`, one entry per byte); machine integers are
`Nat` with explicit `% 2^32` at the 4-byte serialization boundary; fallible
operations (Python exceptions) return `Option`/`Except`.
-/

namespace MMap

/-- Fixed header size, magic number, version and dirty flag from
mmap_buffer.py module constants. -/
def HEADER_SIZE : Nat := 32

def MAGIC_NUMBER : Nat := 0x4C4F4742

def VERSION : Nat := 1

def FLAG_DIRTY : Nat := 0x01

/-- Little-endian 4-byte encoding, modelling struct.pack with format <I. -/
def le32 (n : Nat) : List Nat :=
  [n % 256, n / 256 % 256, n / 65536 % 256, n / 16777216 % 256]

/-- Reading a slice mmap[off : off+len] (Python read slices clamp at the end
of the mapping). -/
def rdSlice (arr : List Nat) (off len : Nat) : List Nat :=
  (arr.drop off).take len

/-- Decoding 4 little-endian bytes, modelling struct.unpack with format <I
applied to mmap[off : off+4]. -/
def toN4 : List Nat → Nat
  | [a, b, c, d] => a + 256 * b + 65536 * c + 16777216 * d
  | _ => 0

def rd32 (arr : List Nat) (off : Nat) : Nat :=
  toN4 (rdSlice arr off 4)

/-- Slice assignment mmap[off : off+bytes.length] = bytes.  Python raises
IndexError when the assigned slice does not fit inside the mapping; that is
the `none` case. -/
def setSlice (arr : List Nat) (off : Nat) (bytes : List Nat) : Option (List Nat) :=
  if off + bytes.length ≤ arr.length then
    some (arr.take off ++ bytes ++ arr.drop (off + bytes.length))
  else
    none

/-- The 32-byte header written by MMapLogBuffer._write_header:
magic, version, write offset, entry count, flags, 12 reserved zero bytes
(struct.pack format <IIIII12x). -/
def headerBytes (writeOffset entryCount flags : Nat) : List Nat :=
  le32 MAGIC_NUMBER ++ le32 VERSION ++ le32 writeOffset ++ le32 entryCount ++
    le32 flags ++ List.replicate 12 0

/-- State of an MMapLogBuffer: the mapped bytes and the closed flag.  The
buffer size is data.length; after close the mapping is gone, which the
closed flag records. -/
structure Buf where
  data : List Nat
  closed : Bool
deriving DecidableEq

def writeHeader (arr : List Nat) (wo ec fl : Nat) : Option (List Nat) :=
  setSlice arr 0 (headerBytes wo ec fl)

/-- MMapLogBuffer._create_new: a zero-filled file of the requested size with
a fresh header (offset just past the header, dirty flag set). -/
def createNew (size : Nat) : Option Buf :=
  (writeHeader (List.replicate size 0) HEADER_SIZE 0 FLAG_DIRTY).map (fun d => ⟨d, false⟩)

/-- MMapLogBuffer._open_existing: map the file and validate the magic
number (ValueError when it does not match). -/
def openExisting (file : List Nat) : Option Buf :=
  if rd32 file 0 = MAGIC_NUMBER then some ⟨file, false⟩ else none

/-- MMapLogBuffer.write.  Returns `some (buffer, false)` when closed,
`some (buffer, true)` on success, and `none` when a slice assignment
raises.  Entry layout: 4 length bytes, the payload, one newline byte. -/
def write (b : Buf) (data : List Nat) : Option (Buf × Bool) :=
  if b.closed then some (b, false)
  else
    let size := b.data.length
    let wo0 := rd32 b.data 8
    let ec := rd32 b.data 12
    let entrySize := 4 + data.length + 1
    let wo := if wo0 + entrySize > size then HEADER_SIZE else wo0
    match setSlice b.data wo (le32 data.length) with
    | none => none
    | some a1 =>
      match setSlice a1 (wo + 4) data with
      | none => none
      | some a2 =>
        match setSlice a2 (wo + 4 + data.length) [10] with
        | none => none
        | some a3 =>
          match writeHeader a3 (wo + entrySize) (ec + 1) FLAG_DIRTY with
          | none => none
          | some a4 => some (⟨a4, false⟩, true)

/-- MMapLogBuffer.close: rewrite the header with flags 0 (mark clean) and
release the mapping. -/
def closeBuf (b : Buf) : Option Buf :=
  if b.closed then some b
  else
    match writeHeader b.data (rd32 b.data 8) (rd32 b.data 12) 0 with
    | none => none
    | some d => some ⟨d, true⟩

/-- Scan loop of MMapLogBuffer.recover: walk length-prefixed entries from
just past the header up to the recorded write offset, stopping on zero or
oversized length or on an overrun. -/
def recoverLoop (arr : List Nat) (wo : Nat) : Nat → Nat → List (List Nat)
  | _, 0 => []
  | offset, fuel + 1 =>
    if offset < wo ∧ offset < arr.length - 4 then
      if rd32 arr offset = 0 ∨ rd32 arr offset > arr.length then []
      else if offset + 4 + rd32 arr offset > arr.length then []
      else rdSlice arr (offset + 4) (rd32 arr offset) ::
        recoverLoop arr wo (offset + 4 + rd32 arr offset + 1) fuel
    else []

/-- MMapLogBuffer.recover.  The Python code utf-8-decodes each recovered
payload slice; the model returns the payload byte slices themselves (the
decode is applied to exactly these bytes).  The fuel argument (the write
offset) bounds the loop; it can never run out because the offset strictly
grows by at least five bytes per iteration while staying below the write
offset. -/
def recover (b : Buf) : List (List Nat) :=
  if b.closed then []
  else recoverLoop b.data (rd32 b.data 8) HEADER_SIZE (rd32 b.data 8)

/-- Running a sequence of writes, propagating a raised exception as none. -/
def runWrites : Buf → List (List Nat) → Option Buf
  | b, [] => some b
  | b, p :: ps =>
    match write b p with
    | some (b', _) => runWrites b' ps
    | none => none

/-- Bytes of a single on-disk record as laid out by write:
4 length bytes, payload, newline byte. -/
def recordBytes (p : List Nat) : List Nat :=
  le32 p.length ++ p ++ [10]

def recordsBytes (ps : List (List Nat)) : List Nat :=
  (ps.map recordBytes).flatten

/-- Total on-disk length of the records of the given payloads. -/
def recLen (ps : List (List Nat)) : Nat :=
  (ps.map (fun p => 4 + p.length + 1)).sum

/-- End-to-end round trip of claim C2: fresh buffer, a sequence of writes,
close, reopen, recover. -/
def roundTrip (size : Nat) (ps : List (List Nat)) : Option (List (List Nat)) :=
  (createNew size).bind fun b0 =>
    (runWrites b0 ps).bind fun b1 =>
      (closeBuf b1).bind fun b2 =>
        (openExisting b2.data).map recover

end MMap

namespace MMap

theorem le32_length (n : Nat) : (le32 n).length = 4 := rfl

theorem headerBytes_length (a b c : Nat) : (headerBytes a b c).length = 32 := rfl

theorem toN4_le32 {n : Nat} (h : n < 4294967296) : toN4 (le32 n) = n := by
  simp only [toN4, le32]
  omega

theorem rdSlice_append (A B : List Nat) (len : Nat) :
    rdSlice (A ++ B) A.length len = B.take len := by
  simp [rdSlice, List.drop_left]

theorem rd32_of_le32 (A R : List Nat) {n : Nat} (h : n < 4294967296) :
    rd32 (A ++ (le32 n ++ R)) A.length = n := by
  rw [rd32, rdSlice_append]
  rw [List.take_left' (le32_length n)]
  exact toN4_le32 h

theorem rd32_header_magic (wo ec fl : Nat) (X : List Nat) :
    rd32 (headerBytes wo ec fl ++ X) 0 = MAGIC_NUMBER := by
  have h := rd32_of_le32 []
    (le32 VERSION ++ le32 wo ++ le32 ec ++ le32 fl ++ List.replicate 12 0 ++ X)
    (n := MAGIC_NUMBER) (by decide)
  simpa [headerBytes, List.append_assoc] using h

theorem rd32_header_wo (wo ec fl : Nat) (X : List Nat) (h : wo < 4294967296) :
    rd32 (headerBytes wo ec fl ++ X) 8 = wo := by
  have h8 : (le32 MAGIC_NUMBER ++ le32 VERSION).length = 8 := rfl
  have hr := rd32_of_le32 (le32 MAGIC_NUMBER ++ le32 VERSION)
    (le32 ec ++ le32 fl ++ List.replicate 12 0 ++ X) h
  rw [h8] at hr
  simpa [headerBytes, List.append_assoc] using hr

theorem rd32_header_ec (wo ec fl : Nat) (X : List Nat) (h : ec < 4294967296) :
    rd32 (headerBytes wo ec fl ++ X) 12 = ec := by
  have h12 : (le32 MAGIC_NUMBER ++ le32 VERSION ++ le32 wo).length = 12 := rfl
  have hr := rd32_of_le32 (le32 MAGIC_NUMBER ++ le32 VERSION ++ le32 wo)
    (le32 fl ++ List.replicate 12 0 ++ X) h
  rw [h12] at hr
  simpa [headerBytes, List.append_assoc] using hr

theorem setSlice_append (A C D : List Nat) (h : C.length ≤ D.length) :
    setSlice (A ++ D) A.length C = some (A ++ (C ++ D.drop C.length)) := by
  unfold setSlice
  rw [if_pos (by simp; omega)]
  rw [List.take_left, List.drop_append]
  simp [List.append_assoc]

theorem setSlice_zero (arr C : List Nat) (h : C.length ≤ arr.length) :
    setSlice arr 0 C = some (C ++ arr.drop C.length) := by
  unfold setSlice
  rw [if_pos (by omega)]
  simp

end MMap

namespace MMap

/-- Behavior of write on an open buffer whose record fits at the current
write offset without wrapping: the record bytes are placed at the offset
and the header is advanced. -/
theorem write_fits (B Z p : List Nat) (ec fl : Nat)
    (hwo : 32 + B.length < 4294967296)
    (hec : ec < 4294967296)
    (hfit : 4 + p.length + 1 ≤ Z.length) :
    write ⟨headerBytes (32 + B.length) ec fl ++ (B ++ Z), false⟩ p =
      some (⟨headerBytes (32 + B.length + (4 + p.length + 1)) (ec + 1) FLAG_DIRTY ++
        ((B ++ recordBytes p) ++ Z.drop (4 + p.length + 1)), false⟩, true) := by
  have hdata : headerBytes (32 + B.length) ec fl ++ (B ++ Z) =
      (headerBytes (32 + B.length) ec fl ++ B) ++ Z := by
    rw [List.append_assoc]
  have hABlen : (headerBytes (32 + B.length) ec fl ++ B).length = 32 + B.length := by
    simp [headerBytes_length]
  have hlen : (headerBytes (32 + B.length) ec fl ++ (B ++ Z)).length =
      32 + B.length + Z.length := by
    simp [headerBytes_length]; omega
  have hrdwo : rd32 (headerBytes (32 + B.length) ec fl ++ (B ++ Z)) 8 = 32 + B.length :=
    rd32_header_wo _ _ _ _ hwo
  have hrdec : rd32 (headerBytes (32 + B.length) ec fl ++ (B ++ Z)) 12 = ec :=
    rd32_header_ec _ _ _ _ hec
  -- first slice: the 4 length bytes at the write offset
  have hs1 : setSlice (headerBytes (32 + B.length) ec fl ++ (B ++ Z))
      (32 + B.length) (le32 p.length) =
      some ((headerBytes (32 + B.length) ec fl ++ B) ++ (le32 p.length ++ Z.drop 4)) := by
    rw [hdata, ← hABlen]
    exact setSlice_append _ _ _ (by rw [le32_length]; omega)
  -- second slice: the payload
  have hs2 : setSlice ((headerBytes (32 + B.length) ec fl ++ B) ++ (le32 p.length ++ Z.drop 4))
      (32 + B.length + 4) p =
      some (((headerBytes (32 + B.length) ec fl ++ B) ++ le32 p.length) ++
        (p ++ Z.drop (4 + p.length))) := by
    have hA2 : ((headerBytes (32 + B.length) ec fl ++ B) ++ le32 p.length).length =
        32 + B.length + 4 := by
      simp [headerBytes_length, le32_length]; omega
    have hrw : (headerBytes (32 + B.length) ec fl ++ B) ++ (le32 p.length ++ Z.drop 4) =
        ((headerBytes (32 + B.length) ec fl ++ B) ++ le32 p.length) ++ Z.drop 4 := by
      simp [List.append_assoc]
    rw [hrw, ← hA2]
    have := setSlice_append ((headerBytes (32 + B.length) ec fl ++ B) ++ le32 p.length)
      p (Z.drop 4) (by simp; omega)
    rw [this]
    rw [List.drop_drop]
  -- third slice: the newline byte
  have hs3 : setSlice (((headerBytes (32 + B.length) ec fl ++ B) ++ le32 p.length) ++
      (p ++ Z.drop (4 + p.length)))
      (32 + B.length + 4 + p.length) [10] =
      some ((((headerBytes (32 + B.length) ec fl ++ B) ++ le32 p.length) ++ p) ++
        ([10] ++ Z.drop (4 + p.length + 1))) := by
    have hA3 : (((headerBytes (32 + B.length) ec fl ++ B) ++ le32 p.length) ++ p).length =
        32 + B.length + 4 + p.length := by
      simp [headerBytes_length, le32_length]; omega
    have hrw : ((headerBytes (32 + B.length) ec fl ++ B) ++ le32 p.length) ++
        (p ++ Z.drop (4 + p.length)) =
        (((headerBytes (32 + B.length) ec fl ++ B) ++ le32 p.length) ++ p) ++
          Z.drop (4 + p.length) := by
      simp [List.append_assoc]
    rw [hrw, ← hA3]
    have := setSlice_append ((((headerBytes (32 + B.length) ec fl ++ B) ++ le32 p.length) ++ p))
      [10] (Z.drop (4 + p.length)) (by simp; omega)
    rw [this]
    rw [List.drop_drop]
    simp
  -- final header rewrite
  have hs4 : writeHeader ((((headerBytes (32 + B.length) ec fl ++ B) ++ le32 p.length) ++ p) ++
      ([10] ++ Z.drop (4 + p.length + 1)))
      (32 + B.length + (4 + p.length + 1)) (ec + 1) FLAG_DIRTY =
      some (headerBytes (32 + B.length + (4 + p.length + 1)) (ec + 1) FLAG_DIRTY ++
        ((B ++ recordBytes p) ++ Z.drop (4 + p.length + 1))) := by
    have hshape : (((headerBytes (32 + B.length) ec fl ++ B) ++ le32 p.length) ++ p) ++
        ([10] ++ Z.drop (4 + p.length + 1)) =
        headerBytes (32 + B.length) ec fl ++
          (((B ++ le32 p.length) ++ p) ++ ([10] ++ Z.drop (4 + p.length + 1))) := by
      simp [List.append_assoc]
    rw [hshape, writeHeader]
    have := setSlice_zero (headerBytes (32 + B.length) ec fl ++
        (((B ++ le32 p.length) ++ p) ++ ([10] ++ Z.drop (4 + p.length + 1))))
      (headerBytes (32 + B.length + (4 + p.length + 1)) (ec + 1) FLAG_DIRTY)
      (by simp [headerBytes_length])
    rw [this, headerBytes_length, List.drop_left' (headerBytes_length _ _ _)]
    congr 1
    simp [recordBytes, List.append_assoc]
  -- assemble
  unfold write
  simp only [Bool.false_eq_true, if_false, hrdwo, hrdec, hlen]
  rw [if_neg (by omega)]
  simp only [hs1, hs2, hs3, hs4]

end MMap

namespace MMap

theorem recLen_cons (p : List Nat) (ps : List (List Nat)) :
    recLen (p :: ps) = (4 + p.length + 1) + recLen ps := by
  simp [recLen]

theorem recordBytes_length (p : List Nat) :
    (recordBytes p).length = 4 + p.length + 1 := by
  simp [recordBytes, le32_length]; omega

/-- Layout of the buffer after a run of writes that all fit without
wrapping: the records are appended in order after the existing body B and
the header records the advanced offset and entry count. -/
theorem runWrites_layout (ps : List (List Nat)) : ∀ (B Z : List Nat) (ec fl : Nat),
    32 + B.length + Z.length < 4294967296 →
    ec + ps.length < 4294967296 →
    recLen ps ≤ Z.length →
    runWrites ⟨headerBytes (32 + B.length) ec fl ++ (B ++ Z), false⟩ ps =
      some ⟨headerBytes (32 + B.length + recLen ps) (ec + ps.length)
          (if ps = [] then fl else FLAG_DIRTY) ++
        ((B ++ recordsBytes ps) ++ Z.drop (recLen ps)), false⟩ := by
  induction ps with
  | nil =>
    intro B Z ec fl hsz hec hfit
    simp [runWrites, recLen, recordsBytes]
  | cons p ps ih =>
    intro B Z ec fl hsz hec hfit
    rw [recLen_cons] at hfit
    have hw := write_fits B Z p ec fl (by omega) (by omega) (by omega)
    rw [runWrites]
    simp only [hw]
    have hB' : (B ++ recordBytes p).length = B.length + (4 + p.length + 1) := by
      simp [recordBytes_length]
    have hih := ih (B ++ recordBytes p) (Z.drop (4 + p.length + 1)) (ec + 1) FLAG_DIRTY
      (by simp [recordBytes_length]; omega) (by simp at hec ⊢; omega) (by simp; omega)
    rw [hB'] at hih
    have harith : 32 + (B.length + (4 + p.length + 1)) = 32 + B.length + (4 + p.length + 1) := by
      omega
    rw [harith] at hih
    rw [hih]
    have h1 : 32 + B.length + (4 + p.length + 1) + recLen ps = 32 + B.length + recLen (p :: ps) := by
      rw [recLen_cons]; omega
    have h2 : ec + 1 + ps.length = ec + (p :: ps).length := by
      simp [List.length_cons]; omega
    have h3 : (B ++ recordBytes p) ++ recordsBytes ps ++
        List.drop (recLen ps) (List.drop (4 + p.length + 1) Z) =
        (B ++ recordsBytes (p :: ps)) ++ List.drop (recLen (p :: ps)) Z := by
      rw [List.drop_drop, recLen_cons]
      simp [recordsBytes, List.append_assoc]
    rw [ite_self]
    rw [if_neg (List.cons_ne_nil p ps)]
    rw [h1, h2, h3]

end MMap

namespace MMap

theorem recordsBytes_cons (p : List Nat) (ps : List (List Nat)) :
    recordsBytes (p :: ps) = recordBytes p ++ recordsBytes ps := by
  simp [recordsBytes]

theorem recordsBytes_length (ps : List (List Nat)) :
    (recordsBytes ps).length = recLen ps := by
  induction ps with
  | nil => simp [recordsBytes, recLen]
  | cons p ps ih =>
    rw [recordsBytes_cons]
    simp [recordBytes_length, ih, recLen_cons]

theorem take_drop_of_take (D : List Nat) (L a b : Nat) (h : a + b ≤ L) :
    (D.drop a).take b = ((D.take L).drop a).take b := by
  rw [List.drop_take, List.take_take]
  congr 1
  omega

/-- Scanning a region that holds exactly the records of the payload list
ps (all nonempty) between the start offset and the write offset recovers
the payloads in order. -/
theorem recoverLoop_spec (ps : List (List Nat)) : ∀ (arr : List Nat) (off fuel : Nat),
    (arr.drop off).take (recLen ps) = recordsBytes ps →
    (∀ p ∈ ps, p ≠ []) →
    (∀ p ∈ ps, p.length < 4294967296) →
    off + recLen ps ≤ arr.length →
    ps.length ≤ fuel →
    recoverLoop arr (off + recLen ps) off fuel = ps := by
  induction ps with
  | nil =>
    intro arr off fuel _ _ _ _ _
    cases fuel with
    | zero => rfl
    | succ f =>
      rw [recoverLoop, if_neg (by simp [recLen])]
  | cons p ps ih =>
    intro arr off fuel hread hne hlen hbound hfuel
    rcases fuel with _ | f
    · simp at hfuel
    rw [recLen_cons] at hread hbound ⊢
    have hpne : p ≠ [] := hne p (List.mem_cons_self p ps)
    have hplen : p.length < 4294967296 := hlen p (List.mem_cons_self p ps)
    have hppos : 0 < p.length := List.length_pos.mpr hpne
    have hfield : rd32 arr off = p.length := by
      have h1 : (arr.drop off).take 4 = ((arr.drop off).take (4 + p.length + 1 + recLen ps)).take 4 := by
        rw [List.take_take]
        congr 1
        omega
      have h2 : recordBytes p ++ recordsBytes ps =
          le32 p.length ++ ((p ++ [10]) ++ recordsBytes ps) := by
        simp [recordBytes, List.append_assoc]
      rw [rd32, rdSlice, h1, hread, recordsBytes_cons, h2,
        List.take_left' (le32_length p.length)]
      exact toN4_le32 hplen
    have hpay : rdSlice arr (off + 4) p.length = p := by
      rw [rdSlice]
      have hd : arr.drop (off + 4) = (arr.drop off).drop 4 := by
        rw [List.drop_drop]
      rw [hd, take_drop_of_take (arr.drop off) (4 + p.length + 1 + recLen ps) 4 p.length
        (by omega)]
      have h2 : recordBytes p ++ recordsBytes ps =
          le32 p.length ++ (p ++ ([10] ++ recordsBytes ps)) := by
        simp [recordBytes, List.append_assoc]
      rw [hread, recordsBytes_cons, h2, List.drop_left' (le32_length p.length),
        List.take_left' rfl]
    have hrec : (arr.drop (off + (4 + p.length + 1))).take (recLen ps) = recordsBytes ps := by
      have hd : arr.drop (off + (4 + p.length + 1)) = (arr.drop off).drop (4 + p.length + 1) := by
        rw [List.drop_drop]
      rw [hd, take_drop_of_take (arr.drop off) (4 + p.length + 1 + recLen ps) (4 + p.length + 1)
        (recLen ps) (by omega)]
      rw [hread, recordsBytes_cons, List.drop_left' (recordBytes_length p),
        ← recordsBytes_length ps, List.take_length]
    rw [recoverLoop]
    rw [if_pos ⟨by omega, by omega⟩]
    rw [hfield]
    rw [if_neg (by omega)]
    rw [if_neg (by omega)]
    rw [hpay]
    have hoff : off + 4 + p.length + 1 = off + (4 + p.length + 1) := by omega
    have hwo : off + (4 + p.length + 1 + recLen ps) = (off + (4 + p.length + 1)) + recLen ps := by
      omega
    rw [hoff, hwo]
    rw [ih (arr) (off + (4 + p.length + 1)) f hrec
      (fun q hq => hne q (List.mem_cons_of_mem p hq))
      (fun q hq => hlen q (List.mem_cons_of_mem p hq))
      (by omega) (by simp at hfuel; omega)]

end MMap

namespace MMap

theorem le_recLen_of_mem {p : List Nat} {ps : List (List Nat)} (h : p ∈ ps) :
    4 + p.length + 1 ≤ recLen ps := by
  induction ps with
  | nil => cases h
  | cons q ps ih =>
    rw [recLen_cons]
    rcases List.mem_cons.mp h with h1 | h2
    · subst h1; omega
    · have := ih h2; omega

theorem length_le_recLen (ps : List (List Nat)) : ps.length ≤ recLen ps := by
  induction ps with
  | nil => simp [recLen]
  | cons p ps ih =>
    rw [recLen_cons]
    simp only [List.length_cons]
    omega

theorem createNew_eq (size : Nat) (h : 32 ≤ size) :
    createNew size =
      some ⟨headerBytes HEADER_SIZE 0 FLAG_DIRTY ++ List.replicate (size - 32) 0, false⟩ := by
  unfold createNew writeHeader
  rw [setSlice_zero _ _ (by simp [headerBytes_length]; omega)]
  rw [headerBytes_length, List.drop_replicate]
  rfl

theorem closeBuf_eq (wo ec fl : Nat) (X : List Nat)
    (hwo : wo < 4294967296) (hec : ec < 4294967296) :
    closeBuf ⟨headerBytes wo ec fl ++ X, false⟩ = some ⟨headerBytes wo ec 0 ++ X, true⟩ := by
  unfold closeBuf
  simp only [Bool.false_eq_true, if_false]
  rw [rd32_header_wo _ _ _ _ hwo, rd32_header_ec _ _ _ _ hec]
  rw [writeHeader, setSlice_zero _ _ (by simp [headerBytes_length])]
  rw [headerBytes_length, List.drop_left' (headerBytes_length _ _ _)]

theorem openExisting_header (wo ec fl : Nat) (X : List Nat) :
    openExisting (headerBytes wo ec fl ++ X) = some ⟨headerBytes wo ec fl ++ X, false⟩ := by
  unfold openExisting
  rw [if_pos (rd32_header_magic wo ec fl X)]

theorem recover_of_layout (ps : List (List Nat)) (ec fl : Nat) (R : List Nat)
    (hwo : 32 + recLen ps < 4294967296)
    (hne : ∀ p ∈ ps, p ≠ [])
    (hplen : ∀ p ∈ ps, p.length < 4294967296) :
    recover ⟨headerBytes (32 + recLen ps) ec fl ++ (recordsBytes ps ++ R), false⟩ = ps := by
  unfold recover
  simp only [Bool.false_eq_true, if_false]
  rw [rd32_header_wo _ _ _ _ hwo]
  have hread : ((headerBytes (32 + recLen ps) ec fl ++
      (recordsBytes ps ++ R)).drop 32).take (recLen ps) = recordsBytes ps := by
    rw [List.drop_left' (headerBytes_length _ _ _)]
    have h1 : recordsBytes ps ++ R =
        recordsBytes ps ++ R := rfl
    calc (recordsBytes ps ++ R).take (recLen ps)
        = (recordsBytes ps ++ R).take (recordsBytes ps).length := by
          rw [recordsBytes_length]
      _ = recordsBytes ps := List.take_left _ _
  have hbound : 32 + recLen ps ≤
      (headerBytes (32 + recLen ps) ec fl ++ (recordsBytes ps ++ R)).length := by
    simp [headerBytes_length, recordsBytes_length]
  exact recoverLoop_spec ps _ 32 (32 + recLen ps) hread hne hplen hbound
    (by have := length_le_recLen ps; omega)

end MMap

namespace MMap

/-- Full layout of the file after a run of writes on a fresh buffer. -/
theorem freshRun_layout (size : Nat) (ps : List (List Nat))
    (hsize : 32 ≤ size) (hmax : size < 4294967296)
    (hfit : 32 + recLen ps ≤ size) :
    (createNew size).bind (fun b => runWrites b ps) =
      some ⟨headerBytes (32 + recLen ps) ps.length
          (if ps = [] then FLAG_DIRTY else FLAG_DIRTY) ++
        (recordsBytes ps ++ List.replicate (size - 32 - recLen ps) 0), false⟩ := by
  rw [createNew_eq size hsize]
  have hb0 : (⟨headerBytes HEADER_SIZE 0 FLAG_DIRTY ++ List.replicate (size - 32) 0,
      false⟩ : Buf) =
      ⟨headerBytes (32 + List.length ([] : List Nat)) 0 FLAG_DIRTY ++
        ([] ++ List.replicate (size - 32) 0), false⟩ := rfl
  rw [Option.some_bind, hb0]
  rw [runWrites_layout ps [] (List.replicate (size - 32) 0) 0 FLAG_DIRTY
    (by simp; omega) (by have := length_le_recLen ps; omega) (by simp; omega)]
  rw [List.drop_replicate]
  simp

/-- Claim C2, amended: writing nonempty byte payloads that together fit
within the buffer capacity, closing, reopening and recovering yields
exactly the payloads, in order and byte for byte.  (The code stops
recovery at a zero length field, so an empty payload and everything after
it would be lost; the claim holds for nonempty payloads.) -/
theorem mmap_roundtrip_nonempty (size : Nat) (ps : List (List Nat))
    (hsize : 32 ≤ size) (hmax : size < 4294967296)
    (hne : ∀ p ∈ ps, p ≠ [])
    (hfit : 32 + recLen ps ≤ size) :
    roundTrip size ps = some ps := by
  have hplen : ∀ p ∈ ps, p.length < 4294967296 := by
    intro p hp
    have := le_recLen_of_mem hp
    omega
  unfold roundTrip
  have hrun := freshRun_layout size ps hsize hmax hfit
  rw [ite_self] at hrun
  have hbind : (createNew size).bind (fun b0 => (runWrites b0 ps).bind
      (fun b1 => (closeBuf b1).bind (fun b2 => (openExisting b2.data).map recover))) =
      ((createNew size).bind (fun b => runWrites b ps)).bind
      (fun b1 => (closeBuf b1).bind (fun b2 => (openExisting b2.data).map recover)) := by
    cases createNew size <;> rfl
  rw [hbind, hrun, Option.some_bind]
  rw [closeBuf_eq _ _ _ _ (by omega) (by have := length_le_recLen ps; omega)]
  rw [Option.some_bind]
  rw [openExisting_header]
  rw [Option.map_some']
  rw [recover_of_layout ps ps.length 0 (List.replicate (size - 32 - recLen ps) 0)
    (by omega) hne hplen]

end MMap

namespace MMap

theorem setSlice_length {arr bytes res : List Nat} {off : Nat}
    (h : setSlice arr off bytes = some res) : res.length = arr.length := by
  unfold setSlice at h
  split_ifs at h with hc
  injection h with h
  subst h
  simp only [List.length_append, List.length_take, List.length_drop]
  omega

theorem write_closed (d : List Nat) (p : List Nat) :
    write ⟨d, true⟩ p = some (⟨d, true⟩, false) := by
  unfold write
  simp

/-- Behavior of write when the record does not fit at the current offset:
the offset wraps to just past the header and the record is written there,
overwriting the oldest data. -/
theorem write_wrap (body p : List Nat) (wo ec fl : Nat)
    (hwo32 : 32 ≤ wo)
    (hwo : wo < 4294967296)
    (hec : ec < 4294967296)
    (hwrap : wo + (4 + p.length + 1) > 32 + body.length)
    (hfit : 4 + p.length + 1 ≤ body.length) :
    write ⟨headerBytes wo ec fl ++ body, false⟩ p =
      some (⟨headerBytes (32 + (4 + p.length + 1)) (ec + 1) FLAG_DIRTY ++
        (recordBytes p ++ body.drop (4 + p.length + 1)), false⟩, true) := by
  have hrdwo : rd32 (headerBytes wo ec fl ++ body) 8 = wo :=
    rd32_header_wo _ _ _ _ hwo
  have hrdec : rd32 (headerBytes wo ec fl ++ body) 12 = ec :=
    rd32_header_ec _ _ _ _ hec
  have hlen : (headerBytes wo ec fl ++ body).length = 32 + body.length := by
    simp [headerBytes_length]
  have hs1 : setSlice (headerBytes wo ec fl ++ body) HEADER_SIZE (le32 p.length) =
      some (headerBytes wo ec fl ++ (le32 p.length ++ body.drop 4)) := by
    have h32 : HEADER_SIZE = (headerBytes wo ec fl).length := (headerBytes_length _ _ _).symm
    rw [h32]
    exact setSlice_append _ _ _ (by rw [le32_length]; omega)
  have hs2 : setSlice (headerBytes wo ec fl ++ (le32 p.length ++ body.drop 4))
      (HEADER_SIZE + 4) p =
      some ((headerBytes wo ec fl ++ le32 p.length) ++ (p ++ body.drop (4 + p.length))) := by
    have hA : (headerBytes wo ec fl ++ le32 p.length).length = HEADER_SIZE + 4 := by
      simp [headerBytes_length, le32_length, HEADER_SIZE]
    have hrw : headerBytes wo ec fl ++ (le32 p.length ++ body.drop 4) =
        (headerBytes wo ec fl ++ le32 p.length) ++ body.drop 4 := by
      simp [List.append_assoc]
    rw [hrw, ← hA]
    have := setSlice_append (headerBytes wo ec fl ++ le32 p.length) p (body.drop 4)
      (by simp; omega)
    rw [this, List.drop_drop]
  have hs3 : setSlice ((headerBytes wo ec fl ++ le32 p.length) ++ (p ++ body.drop (4 + p.length)))
      (HEADER_SIZE + 4 + p.length) [10] =
      some (((headerBytes wo ec fl ++ le32 p.length) ++ p) ++
        ([10] ++ body.drop (4 + p.length + 1))) := by
    have hA : ((headerBytes wo ec fl ++ le32 p.length) ++ p).length =
        HEADER_SIZE + 4 + p.length := by
      simp [headerBytes_length, le32_length, HEADER_SIZE]
      omega
    have hrw : (headerBytes wo ec fl ++ le32 p.length) ++ (p ++ body.drop (4 + p.length)) =
        ((headerBytes wo ec fl ++ le32 p.length) ++ p) ++ body.drop (4 + p.length) := by
      simp [List.append_assoc]
    rw [hrw, ← hA]
    have := setSlice_append ((headerBytes wo ec fl ++ le32 p.length) ++ p) [10]
      (body.drop (4 + p.length)) (by simp; omega)
    rw [this, List.drop_drop]
    simp
  have hs4 : writeHeader (((headerBytes wo ec fl ++ le32 p.length) ++ p) ++
      ([10] ++ body.drop (4 + p.length + 1)))
      (HEADER_SIZE + (4 + p.length + 1)) (ec + 1) FLAG_DIRTY =
      some (headerBytes (32 + (4 + p.length + 1)) (ec + 1) FLAG_DIRTY ++
        (recordBytes p ++ body.drop (4 + p.length + 1))) := by
    have hshape : ((headerBytes wo ec fl ++ le32 p.length) ++ p) ++
        ([10] ++ body.drop (4 + p.length + 1)) =
        headerBytes wo ec fl ++
          ((le32 p.length ++ p) ++ ([10] ++ body.drop (4 + p.length + 1))) := by
      simp [List.append_assoc]
    rw [hshape, writeHeader]
    simp only [HEADER_SIZE]
    have := setSlice_zero (headerBytes wo ec fl ++
        ((le32 p.length ++ p) ++ ([10] ++ body.drop (4 + p.length + 1))))
      (headerBytes (32 + (4 + p.length + 1)) (ec + 1) FLAG_DIRTY)
      (by simp [headerBytes_length])
    rw [this, headerBytes_length, List.drop_left' (headerBytes_length _ _ _)]
    congr 2
    simp [recordBytes, List.append_assoc, HEADER_SIZE]
  unfold write
  simp only [Bool.false_eq_true, if_false, hrdwo, hrdec, hlen]
  rw [if_pos (by omega)]
  simp only [hs1, hs2, hs3, hs4]

/-- Behavior of write when the record does not fit in the data region at
all: some slice assignment runs past the end of the mapping and raises. -/
theorem write_oversized (body p : List Nat) (wo ec fl : Nat)
    (hwo32 : 32 ≤ wo)
    (hwo : wo < 4294967296)
    (hbig : 4 + p.length + 1 > body.length) :
    write ⟨headerBytes wo ec fl ++ body, false⟩ p = none := by
  have hrdwo : rd32 (headerBytes wo ec fl ++ body) 8 = wo :=
    rd32_header_wo _ _ _ _ hwo
  have hlen : (headerBytes wo ec fl ++ body).length = 32 + body.length := by
    simp [headerBytes_length]
  unfold write
  simp only [Bool.false_eq_true, if_false, hrdwo, hlen]
  rw [if_pos (by omega)]
  by_cases hb4 : body.length < 4
  · have hs1 : setSlice (headerBytes wo ec fl ++ body) HEADER_SIZE (le32 p.length) = none := by
      unfold setSlice
      rw [if_neg (by rw [le32_length, hlen]; simp [HEADER_SIZE]; omega)]
    simp only [hs1]
  · push_neg at hb4
    have hs1 : setSlice (headerBytes wo ec fl ++ body) HEADER_SIZE (le32 p.length) =
        some (headerBytes wo ec fl ++ (le32 p.length ++ body.drop 4)) := by
      have h32 : HEADER_SIZE = (headerBytes wo ec fl).length := (headerBytes_length _ _ _).symm
      rw [h32]
      exact setSlice_append _ _ _ (by rw [le32_length]; omega)
    simp only [hs1]
    by_cases hbp : 4 + p.length ≤ body.length
    · have heq : body.length = 4 + p.length := by omega
      have hs2 : setSlice (headerBytes wo ec fl ++ (le32 p.length ++ body.drop 4))
          (HEADER_SIZE + 4) p =
          some ((headerBytes wo ec fl ++ le32 p.length) ++ (p ++ body.drop (4 + p.length))) := by
        have hA : (headerBytes wo ec fl ++ le32 p.length).length = HEADER_SIZE + 4 := by
          simp [headerBytes_length, le32_length, HEADER_SIZE]
        have hrw : headerBytes wo ec fl ++ (le32 p.length ++ body.drop 4) =
            (headerBytes wo ec fl ++ le32 p.length) ++ body.drop 4 := by
          simp [List.append_assoc]
        rw [hrw, ← hA]
        have := setSlice_append (headerBytes wo ec fl ++ le32 p.length) p (body.drop 4)
          (by simp; omega)
        rw [this, List.drop_drop]
      simp only [hs2]
      have hs3 : setSlice ((headerBytes wo ec fl ++ le32 p.length) ++
          (p ++ body.drop (4 + p.length))) (HEADER_SIZE + 4 + p.length) [10] = none := by
        unfold setSlice
        rw [if_neg (by simp [headerBytes_length, le32_length, HEADER_SIZE]; omega)]
      simp only [hs3]
    · have hs2 : setSlice (headerBytes wo ec fl ++ (le32 p.length ++ body.drop 4))
          (HEADER_SIZE + 4) p = none := by
        unfold setSlice
        rw [if_neg (by simp [headerBytes_length, le32_length, HEADER_SIZE]; omega)]
      simp only [hs2]

end MMap

namespace MMap

/-- The offset actually used by write: wraps to just past the header when
the record would overflow the end of the buffer (the inline if of
MMapLogBuffer.write). -/
def wrappedOffset (wo entrySize size : Nat) : Nat :=
  if wo + entrySize > size then HEADER_SIZE else wo

/-- Unified success behavior of write on an open buffer whose record fits
in the data region: the record lands at the (possibly wrapped) offset. -/
theorem write_open_fits (body p : List Nat) (wo ec fl : Nat)
    (hwo32 : 32 ≤ wo) (hwo2 : wo ≤ 32 + body.length)
    (hwo : wo < 4294967296) (hec : ec < 4294967296)
    (hfit : 4 + p.length + 1 ≤ body.length) :
    write ⟨headerBytes wo ec fl ++ body, false⟩ p =
      some (⟨headerBytes (wrappedOffset wo (4 + p.length + 1) (32 + body.length) +
          (4 + p.length + 1)) (ec + 1) FLAG_DIRTY ++
        (body.take (wrappedOffset wo (4 + p.length + 1) (32 + body.length) - 32) ++
          (recordBytes p ++ body.drop (wrappedOffset wo (4 + p.length + 1) (32 + body.length) -
            32 + (4 + p.length + 1)))), false⟩, true) := by
  by_cases hw : wo + (4 + p.length + 1) > 32 + body.length
  · have hwrapped : wrappedOffset wo (4 + p.length + 1) (32 + body.length) = 32 := by
      rw [wrappedOffset, if_pos hw]
      rfl
    rw [hwrapped, write_wrap body p wo ec fl hwo32 hwo hec hw hfit]
    simp
  · have hwrapped : wrappedOffset wo (4 + p.length + 1) (32 + body.length) = wo := by
      rw [wrappedOffset, if_neg hw]
    push_neg at hw
    have hB : (body.take (wo - 32)).length = wo - 32 := by
      rw [List.length_take]; omega
    have h32 : 32 + (body.take (wo - 32)).length = wo := by rw [hB]; omega
    have hbody : body.take (wo - 32) ++ body.drop (wo - 32) = body :=
      List.take_append_drop _ _
    have hf := write_fits (body.take (wo - 32)) (body.drop (wo - 32)) p ec fl
      (by rw [h32]; exact hwo) (hec) (by simp; omega)
    rw [h32, hbody] at hf
    rw [hwrapped, hf]
    simp [List.drop_drop, List.append_assoc]

end MMap

/-- Claim C7 (amended): after any sequence of fitting writes on a fresh
buffer, the on-disk file is the fixed 32-byte little-endian header (magic,
version, write offset, entry count, flags, 12 reserved bytes) followed by
the records in write order, where each record occupies 4 length bytes plus
the payload bytes plus one newline delimiter byte, each subsequent record
beginning immediately after the previous record's newline byte. -/
theorem C7_file_layout_with_delimiter (size : Nat) (ps : List (List Nat))
    (hsize : 32 ≤ size) (hmax : size < 4294967296)
    (hfit : 32 + MMap.recLen ps ≤ size) :
    ((MMap.createNew size).bind fun b => MMap.runWrites b ps).map MMap.Buf.data =
      some (MMap.headerBytes (32 + MMap.recLen ps) ps.length MMap.FLAG_DIRTY ++
        (MMap.recordsBytes ps ++ List.replicate (size - 32 - MMap.recLen ps) 0)) := by
  rw [MMap.freshRun_layout size ps hsize hmax hfit, ite_self, Option.map_some']

theorem C7_file_layout_with_delimiter_witness :
    ((MMap.createNew 64).bind fun b => MMap.runWrites b [[65], [66]]).map MMap.Buf.data =
      some (MMap.headerBytes (32 + MMap.recLen [[65], [66]]) (List.length [[65], [66]])
          MMap.FLAG_DIRTY ++
        (MMap.recordsBytes [[65], [66]] ++
          List.replicate (64 - 32 - MMap.recLen [[65], [66]]) 0)) :=
  C7_file_layout_with_delimiter 64 [[65], [66]] (by decide) (by decide) (by decide)

namespace MMap

/-- File layout asserted by claim C7 as stated: header, then records of
exactly 4 length bytes plus payload with each record immediately after the
previous record's payload and no delimiter byte, then padding. -/
def flatRecords (ps : List (List Nat)) : List Nat :=
  (ps.map (fun p => le32 p.length ++ p)).flatten

def noDelimiterLayout (ps : List (List Nat)) (file : List Nat) : Prop :=
  ∃ wo ec fl pad, file = headerBytes wo ec fl ++ flatRecords ps ++ pad

end MMap

/-- Counterexample to claim C7 as stated: after writing the payloads [65]
and [66] to a fresh 64-byte buffer the file byte at offset 37 is a newline
delimiter (10), whereas the claimed no-delimiter layout would put the
second record's length field there (byte 1).  The file therefore does not
match the claimed layout for any header values and padding. -/
theorem C7_layout_counterexample :
    ((MMap.createNew 64).bind fun b => MMap.runWrites b [[65], [66]]).map MMap.Buf.data =
      some (MMap.headerBytes 44 2 MMap.FLAG_DIRTY ++
        ([1, 0, 0, 0, 65, 10, 1, 0, 0, 0, 66, 10] ++ List.replicate 20 0)) ∧
    ¬ MMap.noDelimiterLayout [[65], [66]]
      (MMap.headerBytes 44 2 MMap.FLAG_DIRTY ++
        ([1, 0, 0, 0, 65, 10, 1, 0, 0, 0, 66, 10] ++ List.replicate 20 0)) := by
  constructor
  · decide
  · rintro ⟨wo, ec, fl, pad, h⟩
    have h10 : (MMap.headerBytes 44 2 MMap.FLAG_DIRTY ++
        ([1, 0, 0, 0, 65, 10, 1, 0, 0, 0, 66, 10] ++ List.replicate 20 0)).getD 37 0 = 10 := by
      decide
    rw [h] at h10
    have hlen42 : (MMap.headerBytes wo ec fl ++ MMap.flatRecords [[65], [66]]).length = 42 := by
      rw [List.length_append, MMap.headerBytes_length]
      rfl
    have e1 : ((MMap.headerBytes wo ec fl ++ MMap.flatRecords [[65], [66]]) ++ pad).getD 37 0 =
        (MMap.headerBytes wo ec fl ++ MMap.flatRecords [[65], [66]]).getD 37 0 :=
      List.getD_append _ _ _ 37 (by omega)
    have e2 : (MMap.headerBytes wo ec fl ++ MMap.flatRecords [[65], [66]]).getD 37 0 =
        (MMap.flatRecords [[65], [66]]).getD (37 - (MMap.headerBytes wo ec fl).length) 0 :=
      List.getD_append_right _ _ _ 37 (by rw [MMap.headerBytes_length]; omega)
    rw [e1, e2, MMap.headerBytes_length] at h10
    revert h10
    decide

/-- Claim C2 witness at the concrete input size 64, payloads [65] and
[66, 67]. -/
theorem C2_roundtrip_witness :
    MMap.roundTrip 64 [[65], [66, 67]] = some [[65], [66, 67]] :=
  MMap.mmap_roundtrip_nonempty 64 [[65], [66, 67]] (by decide) (by decide)
    (by decide) (by decide)

/-- Counterexample to claim C2 as stated: a single empty payload fits in a
fresh 64-byte buffer (record length 5, 37 ≤ 64), yet the round trip
returns the empty list instead of the written payload, because recover
stops at the zero length field. -/
theorem C2_empty_payload_counterexample :
    32 + MMap.recLen [[]] ≤ 64 ∧
    MMap.roundTrip 64 [[]] = some [] ∧
    (some [] : Option (List (List Nat))) ≠ some [[]] := by
  refine ⟨by decide, by decide, by decide⟩

/-- Claim C8 (amended): write returns False exactly when the buffer is
closed, and on an open buffer whose record (4 length bytes + payload + 1
newline byte) fits in the data region it appends the record at the current
write offset — first wrapping to just past the header when the record
would overflow the end of the buffer — updates the header offset and
count, and returns True.  (For a record that does not fit even after
wrapping, write raises instead of returning False; see claim C10.) -/
theorem C8_write_return_values (d body p : List Nat) (wo ec fl : Nat)
    (hwo32 : 32 ≤ wo) (hwo2 : wo ≤ 32 + body.length)
    (hwo : wo < 4294967296) (hec : ec < 4294967296)
    (hfit : 4 + p.length + 1 ≤ body.length) :
    MMap.write ⟨d, true⟩ p = some (⟨d, true⟩, false) ∧
    MMap.write ⟨MMap.headerBytes wo ec fl ++ body, false⟩ p =
      some (⟨MMap.headerBytes (MMap.wrappedOffset wo (4 + p.length + 1) (32 + body.length) +
          (4 + p.length + 1)) (ec + 1) MMap.FLAG_DIRTY ++
        (body.take (MMap.wrappedOffset wo (4 + p.length + 1) (32 + body.length) - 32) ++
          (MMap.recordBytes p ++
            body.drop (MMap.wrappedOffset wo (4 + p.length + 1) (32 + body.length) -
              32 + (4 + p.length + 1)))), false⟩, true) :=
  ⟨MMap.write_closed d p,
   MMap.write_open_fits body p wo ec fl hwo32 hwo2 hwo hec hfit⟩

/-- Claim C8 witness: a closed buffer returns False; an open fresh-layout
buffer with a fitting record returns True. -/
theorem C8_write_return_values_witness :
    MMap.write ⟨[9, 9], true⟩ [65] = some (⟨[9, 9], true⟩, false) ∧
    MMap.write ⟨MMap.headerBytes 32 0 1 ++ List.replicate 32 0, false⟩ [65] =
      some (⟨MMap.headerBytes (MMap.wrappedOffset 32 (4 + [65].length + 1) (32 + 32) +
          (4 + [65].length + 1)) (0 + 1) MMap.FLAG_DIRTY ++
        ((List.replicate 32 0).take (MMap.wrappedOffset 32 (4 + [65].length + 1) (32 + 32) - 32) ++
          (MMap.recordBytes [65] ++
            (List.replicate 32 0).drop (MMap.wrappedOffset 32 (4 + [65].length + 1) (32 + 32) -
              32 + (4 + [65].length + 1)))), false⟩, true) := by
  have h := C8_write_return_values [9, 9] (List.replicate 32 0) [65] 32 0 1
    (by decide) (by simp) (by decide) (by decide) (by simp)
  exact h

/-- Counterexample to claim C8 as stated: an open fresh 64-byte buffer and
a 60-byte payload.  The claim says every write on an open buffer appends
and returns True, but the record does not fit even after wrapping and the
slice assignment raises (modelled as none), so write neither returns True
nor False. -/
theorem C8_oversized_write_counterexample :
    (MMap.createNew 64).bind (fun b => MMap.write b (List.replicate 60 7)) = none := by
  decide

/-- Claim C10: on an open buffer, write completes and returns True exactly
when the record (4 length bytes + payload length + 1) fits in the data
region (buffer size minus the 32-byte header); when the record exceeds
that bound the wrapped offset still leaves insufficient space and a slice
assignment past the end of the mapping raises (modelled as none) instead
of returning False. -/
theorem C10_write_fits_or_raises (body p : List Nat) (wo ec fl : Nat)
    (hwo32 : 32 ≤ wo) (hwo2 : wo ≤ 32 + body.length)
    (hwo : wo < 4294967296) (hec : ec < 4294967296) :
    (4 + p.length + 1 ≤ body.length →
      ∃ b', MMap.write ⟨MMap.headerBytes wo ec fl ++ body, false⟩ p = some (b', true)) ∧
    (4 + p.length + 1 > body.length →
      MMap.write ⟨MMap.headerBytes wo ec fl ++ body, false⟩ p = none) := by
  constructor
  · intro hfit
    exact ⟨_, MMap.write_open_fits body p wo ec fl hwo32 hwo2 hwo hec hfit⟩
  · intro hbig
    exact MMap.write_oversized body p wo ec fl hwo32 hwo hbig

/-- Claim C10 witness: in a 64-byte buffer (32-byte data region), a 1-byte
payload fits and write succeeds; a 60-byte payload exceeds the data region
and write raises. -/
theorem C10_write_fits_or_raises_witness :
    (∃ b', MMap.write ⟨MMap.headerBytes 32 0 1 ++ List.replicate 32 0, false⟩ [65] =
      some (b', true)) ∧
    MMap.write ⟨MMap.headerBytes 32 0 1 ++ List.replicate 32 0, false⟩ (List.replicate 60 7) =
      none := by
  have h1 := C10_write_fits_or_raises (List.replicate 32 0) [65] 32 0 1
    (by decide) (by simp) (by decide) (by decide)
  have h2 := C10_write_fits_or_raises (List.replicate 32 0) (List.replicate 60 7) 32 0 1
    (by decide) (by simp) (by decide) (by decide)
  exact ⟨h1.1 (by simp), h2.2 (by simp)⟩

namespace WAL

/-- One line of the WAL file.  A write record (WALCriticalWriter._write_to_wal)
carries the sequence number, committed=false and the serialized entry; a
commit marker (_mark_committed) carries the sequence number, committed=true
and no message.  The JSON line encoding is modelled by the record structure
itself; entries are identified by their message text. -/
structure WalRec where
  seq : Nat
  committed : Bool
  payload : Option String
deriving DecidableEq

/-- State of a WALCriticalWriter: the next-sequence counter, the committed
watermark, the WAL file contents and the closed flag, plus the auto_cleanup
configuration flag. -/
structure WalState where
  sequence : Nat
  committedSequence : Nat
  file : List WalRec
  closed : Bool
  autoCleanup : Bool
deriving DecidableEq

def initWal (autoCleanup : Bool) : WalState :=
  ⟨0, 0, [], false, autoCleanup⟩

/-- WALCriticalWriter._cleanup_committed: rewrite the WAL keeping exactly
the lines whose sequence number is above the committed watermark. -/
def cleanupCommitted (committedSeq : Nat) (file : List WalRec) : List WalRec :=
  file.filter (fun r => committedSeq < r.seq)

/-- WALCriticalWriter.write.  Appends the uncommitted record, delegates to
the inner writer (innerRaises is the oracle for an exception from the inner
write), then appends the commit marker and every 100 writes runs cleanup.
The returned Bool is true when the inner-writer exception propagates to the
caller (so the commit marker was never appended). -/
def walWrite (s : WalState) (msg : String) (innerRaises : Bool) : WalState × Bool :=
  if s.closed then (s, false)
  else
    let seq := s.sequence + 1
    let file1 := s.file ++ [⟨seq, false, some msg⟩]
    if innerRaises then
      ({ s with sequence := seq, file := file1 }, true)
    else
      let file2 := file1 ++ [⟨seq, true, none⟩]
      let s' := { s with sequence := seq, committedSequence := seq, file := file2 }
      if s.autoCleanup ∧ seq % 100 = 0 then
        ({ s' with file := cleanupCommitted s'.committedSequence s'.file }, false)
      else
        (s', false)

/-- Running a sequence of write calls; each element pairs the entry message
with the inner-writer failure oracle for that call. -/
def walRun (s : WalState) (xs : List (String × Bool)) : WalState :=
  xs.foldl (fun s x => (walWrite s x.1 x.2).1) s

/-- WALCriticalWriter.close: run cleanup when auto_cleanup is set, then
close the file. -/
def walClose (s : WalState) : WalState :=
  if s.closed then s
  else
    let s' := if s.autoCleanup then
        { s with file := cleanupCommitted s.committedSequence s.file }
      else s
    { s' with closed := true }

/-- Replacement-or-append update of the pending dict
(pending_entries[seq] = data), keeping insertion order as a Python dict
does. -/
def assocUpdate : List (Nat × String) → Nat → String → List (Nat × String)
  | [], k, v => [(k, v)]
  | (k', v') :: rest, k, v =>
    if k' = k then (k, v) :: rest else (k', v') :: assocUpdate rest k v

def assocLookup : List (Nat × String) → Nat → Option String
  | [], _ => none
  | (k', v') :: rest, k => if k' = k then some v' else assocLookup rest k

/-- One step of the first pass of WALCriticalWriter.recover: a line with
committed truthy and no message goes to the committed set, a line with a
message goes to the pending dict, anything else is skipped. -/
def collectStep (acc : List Nat × List (Nat × String)) (r : WalRec) :
    List Nat × List (Nat × String) :=
  if r.committed ∧ r.payload = none then (acc.1 ++ [r.seq], acc.2)
  else
    match r.payload with
    | some m => (acc.1, assocUpdate acc.2 r.seq m)
    | none => acc

/-- First pass of WALCriticalWriter.recover over the file. -/
def collectPass (file : List WalRec) : List Nat × List (Nat × String) :=
  file.foldl collectStep ([], [])

/-- WALCriticalWriter.recover: pending entries whose sequence number has no
commit marker, in ascending sequence order. -/
def walRecover (file : List WalRec) : List String :=
  (List.insertionSort (· ≤ ·) ((collectPass file).2.map Prod.fst)).filterMap
    (fun k => if k ∈ (collectPass file).1 then none else assocLookup (collectPass file).2 k)

end WAL

namespace WAL

/-- The WAL lines appended by a run of writes starting at sequence s: one
uncommitted write record per call, followed by a commit marker exactly for
the calls whose inner write did not raise. -/
def walFileOf (s : Nat) : List (String × Bool) → List WalRec
  | [] => []
  | (m, f) :: rest =>
    (⟨s + 1, false, some m⟩ :: (if f then [] else [⟨s + 1, true, none⟩])) ++
      walFileOf (s + 1) rest

/-- Sequence numbers of the calls whose inner write succeeded (and which
therefore have a commit marker). -/
def okSeqs (s : Nat) : List (String × Bool) → List Nat
  | [] => []
  | (_, f) :: rest => (if f then [] else [s + 1]) ++ okSeqs (s + 1) rest

/-- The pending dict contents after the first recover pass: one
(sequence, message) pair per write record, in write order. -/
def pendPairs (s : Nat) : List (String × Bool) → List (Nat × String)
  | [] => []
  | (m, _) :: rest => (s + 1, m) :: pendPairs (s + 1) rest

theorem walFileOf_cons_fail (s : Nat) (m : String) (rest : List (String × Bool)) :
    walFileOf s ((m, true) :: rest) =
      ⟨s + 1, false, some m⟩ :: walFileOf (s + 1) rest := by
  simp [walFileOf]

theorem walFileOf_cons_ok (s : Nat) (m : String) (rest : List (String × Bool)) :
    walFileOf s ((m, false) :: rest) =
      ⟨s + 1, false, some m⟩ :: ⟨s + 1, true, none⟩ :: walFileOf (s + 1) rest := by
  simp [walFileOf]

theorem okSeqs_cons_fail (s : Nat) (m : String) (rest : List (String × Bool)) :
    okSeqs s ((m, true) :: rest) = okSeqs (s + 1) rest := by
  simp [okSeqs]

theorem okSeqs_cons_ok (s : Nat) (m : String) (rest : List (String × Bool)) :
    okSeqs s ((m, false) :: rest) = (s + 1) :: okSeqs (s + 1) rest := by
  simp [okSeqs]

theorem walRun_cons (s : WalState) (x : String × Bool) (xs : List (String × Bool)) :
    walRun s (x :: xs) = walRun (walWrite s x.1 x.2).1 xs := rfl

theorem walRun_noclean (xs : List (String × Bool)) : ∀ (s0 : WalState),
    s0.closed = false → s0.autoCleanup = false →
    (walRun s0 xs).file = s0.file ++ walFileOf s0.sequence xs ∧
    (walRun s0 xs).closed = false ∧
    (walRun s0 xs).autoCleanup = false ∧
    (walRun s0 xs).sequence = s0.sequence + xs.length := by
  induction xs with
  | nil =>
    intro s0 hcl hac
    simp [walRun, walFileOf, hcl, hac]
  | cons x rest ih =>
    intro s0 hcl hac
    obtain ⟨m, f⟩ := x
    rw [walRun_cons]
    have hstep : (walWrite s0 m f).1 =
        { s0 with
          sequence := s0.sequence + 1,
          committedSequence := if f then s0.committedSequence else s0.sequence + 1,
          file := s0.file ++ (⟨s0.sequence + 1, false, some m⟩ ::
            (if f then [] else [⟨s0.sequence + 1, true, none⟩])) } := by
      unfold walWrite
      rw [hcl]
      cases f with
      | true => simp
      | false =>
        simp only [Bool.false_eq_true, if_false]
        rw [if_neg (by rw [hac]; simp)]
        simp
    have hih := ih (walWrite s0 m f).1 (by rw [hstep]; exact hcl) (by rw [hstep]; exact hac)
    dsimp only
    refine ⟨?_, hih.2.1, hih.2.2.1, ?_⟩
    · rw [hih.1, hstep]
      dsimp only
      rw [walFileOf]
      simp [List.append_assoc]
    · rw [hih.2.2.2, hstep]
      dsimp only
      simp only [List.length_cons]
      omega

theorem okSeqs_gt (xs : List (String × Bool)) : ∀ s k, k ∈ okSeqs s xs → s < k := by
  induction xs with
  | nil => intro s k h; cases h
  | cons x rest ih =>
    intro s k h
    obtain ⟨m, f⟩ := x
    rw [okSeqs] at h
    rcases List.mem_append.mp h with h1 | h2
    · cases f with
      | true => simp at h1
      | false =>
        simp at h1
        omega
    · have := ih (s + 1) k h2
      omega

theorem pendPairs_keys (xs : List (String × Bool)) : ∀ s,
    (pendPairs s xs).map Prod.fst = List.range' (s + 1) xs.length := by
  induction xs with
  | nil => intro s; rfl
  | cons x rest ih =>
    intro s
    obtain ⟨m, f⟩ := x
    rw [pendPairs]
    simp only [List.map_cons, List.length_cons]
    rw [ih (s + 1)]
    rfl

theorem assocUpdate_notmem : ∀ (pend : List (Nat × String)) (k : Nat) (v : String),
    k ∉ pend.map Prod.fst → assocUpdate pend k v = pend ++ [(k, v)] := by
  intro pend
  induction pend with
  | nil => intro k v _; rfl
  | cons kv rest ih =>
    intro k v h
    obtain ⟨k', v'⟩ := kv
    simp only [List.map_cons, List.mem_cons] at h
    push_neg at h
    rw [assocUpdate, if_neg (Ne.symm h.1), ih k v h.2]
    rfl

theorem collect_spec (xs : List (String × Bool)) : ∀ (s : Nat)
    (cs : List Nat) (pend : List (Nat × String)),
    (∀ k ∈ pend.map Prod.fst, k ≤ s) →
    List.foldl collectStep (cs, pend) (walFileOf s xs) =
      (cs ++ okSeqs s xs, pend ++ pendPairs s xs) := by
  induction xs with
  | nil =>
    intro s cs pend _
    simp [walFileOf, okSeqs, pendPairs]
  | cons x rest ih =>
    intro s cs pend hkeys
    obtain ⟨m, f⟩ := x
    have hni : (s + 1) ∉ pend.map Prod.fst := by
      intro hmem
      have := hkeys _ hmem
      omega
    have hkeys' : ∀ k ∈ (pend ++ [(s + 1, m)]).map Prod.fst, k ≤ s + 1 := by
      intro k hk
      rw [List.map_append] at hk
      rcases List.mem_append.mp hk with h1 | h2
      · have := hkeys _ h1; omega
      · simp at h2; omega
    have hstep1 : collectStep (cs, pend) ⟨s + 1, false, some m⟩ =
        (cs, pend ++ [(s + 1, m)]) := by
      simp [collectStep, assocUpdate_notmem pend (s + 1) m hni]
    cases f with
    | true =>
      rw [walFileOf_cons_fail, List.foldl_cons, hstep1,
        ih (s + 1) cs (pend ++ [(s + 1, m)]) hkeys',
        okSeqs_cons_fail, pendPairs]
      simp [List.append_assoc]
    | false =>
      have hstep2 : collectStep (cs, pend ++ [(s + 1, m)]) ⟨s + 1, true, none⟩ =
          (cs ++ [s + 1], pend ++ [(s + 1, m)]) := by
        simp [collectStep]
      rw [walFileOf_cons_ok, List.foldl_cons, hstep1, List.foldl_cons, hstep2,
        ih (s + 1) (cs ++ [s + 1]) (pend ++ [(s + 1, m)]) hkeys',
        okSeqs_cons_ok, pendPairs]
      simp [List.append_assoc]

theorem sorted_le_range' (n : Nat) : ∀ a, List.Sorted (· ≤ ·) (List.range' a n) := by
  induction n with
  | zero => intro a; simp [List.range']
  | succ k ih =>
    intro a
    rw [show List.range' a (k + 1) = a :: List.range' (a + 1) k from rfl]
    rw [List.sorted_cons]
    exact ⟨fun b hb => by have := (List.mem_range'_1.mp hb).1; omega, ih (a + 1)⟩

theorem filter_spec (xs : List (String × Bool)) : ∀ s,
    (List.range' (s + 1) xs.length).filterMap
      (fun k => if k ∈ okSeqs s xs then none else assocLookup (pendPairs s xs) k)
    = (xs.filter (fun x => x.2)).map Prod.fst := by
  induction xs with
  | nil => intro s; rfl
  | cons x rest ih =>
    intro s
    obtain ⟨m, f⟩ := x
    rw [show List.range' (s + 1) ((m, f) :: rest).length =
        (s + 1) :: List.range' (s + 2) rest.length from rfl]
    rw [List.filterMap_cons]
    have hcongr : ∀ k ∈ List.range' (s + 2) rest.length,
        (if k ∈ okSeqs s ((m, f) :: rest) then none
          else assocLookup (pendPairs s ((m, f) :: rest)) k) =
        (if k ∈ okSeqs (s + 1) rest then none
          else assocLookup (pendPairs (s + 1) rest) k) := by
      intro k hk
      have hk2 : s + 2 ≤ k := (List.mem_range'_1.mp hk).1
      have hmem : (k ∈ okSeqs s ((m, f) :: rest)) ↔ (k ∈ okSeqs (s + 1) rest) := by
        rw [okSeqs, List.mem_append]
        constructor
        · rintro (h1 | h2)
          · exfalso
            cases f with
            | true => simp at h1
            | false => simp at h1; omega
          · exact h2
        · intro h
          exact Or.inr h
      have hlook : assocLookup (pendPairs s ((m, f) :: rest)) k =
          assocLookup (pendPairs (s + 1) rest) k := by
        rw [pendPairs, assocLookup, if_neg (by omega)]
      rcases Decidable.em (k ∈ okSeqs (s + 1) rest) with hin | hout
      · rw [if_pos (hmem.mpr hin), if_pos hin]
      · rw [if_neg (fun hc => hout (hmem.mp hc)), if_neg hout, hlook]
    rw [List.filterMap_congr hcongr, ih (s + 1)]
    cases f with
    | true =>
      have hhead : (if (s + 1) ∈ okSeqs s ((m, true) :: rest) then none
          else assocLookup (pendPairs s ((m, true) :: rest)) (s + 1)) =
          some m := by
        rw [if_neg (by
          rw [okSeqs_cons_fail]
          intro hc
          have := okSeqs_gt rest (s + 1) (s + 1) hc
          omega)]
        rw [pendPairs, assocLookup, if_pos rfl]
      rw [hhead]
      simp [List.filter_cons]
    | false =>
      have hhead : (if (s + 1) ∈ okSeqs s ((m, false) :: rest) then none
          else assocLookup (pendPairs s ((m, false) :: rest)) (s + 1)) =
          none := by
        rw [if_pos (by rw [okSeqs_cons_ok]; exact List.mem_cons_self _ _)]
      rw [hhead]
      simp [List.filter_cons]

/-- Recover on the file left by a run of writes with no compaction: the
messages of the failed calls, in write order. -/
theorem walRecover_of_run (xs : List (String × Bool)) :
    walRecover (walFileOf 0 xs) = (xs.filter (fun x => x.2)).map Prod.fst := by
  unfold walRecover collectPass
  rw [collect_spec xs 0 [] [] (by simp)]
  simp only [List.nil_append]
  rw [pendPairs_keys xs 0]
  rw [(sorted_le_range' xs.length 1).insertionSort_eq]
  exact filter_spec xs 0

end WAL

/-- Claim C1 (amended): provided WAL compaction never runs during the
sequence (auto_cleanup disabled; compaction otherwise runs on every 100th
write and can delete uncommitted records below the committed watermark,
see claim C6), recover() returns exactly the events whose sequence number
has no commit marker with the same sequence number, in ascending sequence
order: precisely the events whose inner write raised (so the commit-marker
append was never reached), in write order, and no event whose commit
marker was appended. -/
theorem C1_recover_returns_unconfirmed (xs : List (String × Bool)) :
    WAL.walRecover (WAL.walRun (WAL.initWal false) xs).file =
      (xs.filter (fun x => x.2)).map Prod.fst := by
  obtain ⟨hfile, -, -, -⟩ := WAL.walRun_noclean xs (WAL.initWal false) rfl rfl
  rw [hfile]
  exact WAL.walRecover_of_run xs

set_option maxRecDepth 10000 in
/-- Counterexample to claim C1 as stated: 100 writes with auto cleanup on
(the default), the first of which fails in the inner writer.  The 100th
write triggers compaction, which erases the whole WAL (committed watermark
100), so recover() returns [] even though the event "fail" was never
confirmed — the claim says it must be returned. -/
theorem C1_compaction_counterexample :
    ((("fail", true) :: List.replicate 99 ("ok", false)).filter
      (fun x => x.2)).map Prod.fst = ["fail"] ∧
    WAL.walRecover (WAL.walRun (WAL.initWal true)
      (("fail", true) :: List.replicate 99 ("ok", false))).file = [] := by
  refine ⟨by decide, by decide⟩

/-- Claim C6 evaluated at its failing input (code bug): after writing
("a", inner write raised) then ("b", committed), the WAL holds the
uncommitted seq-1 record, the committed seq-2 record and its marker, and
recover() would return ["a"].  Compaction (here triggered by close with
auto-cleanup, the same _cleanup_committed that runs every 100th write)
keeps only lines with sequence above the committed watermark 2 and so
rewrites the WAL to be EMPTY, deleting the uncommitted seq-1 write record
that the claim says is preserved. -/
theorem C6_cleanup_drops_uncommitted :
    (WAL.walRun (WAL.initWal true) [("a", true), ("b", false)]).file =
      [⟨1, false, some "a"⟩, ⟨2, false, some "b"⟩, ⟨2, true, none⟩] ∧
    WAL.walRecover (WAL.walRun (WAL.initWal true) [("a", true), ("b", false)]).file =
      ["a"] ∧
    WAL.cleanupCommitted
      (WAL.walRun (WAL.initWal true) [("a", true), ("b", false)]).committedSequence
      (WAL.walRun (WAL.initWal true) [("a", true), ("b", false)]).file = [] ∧
    (WAL.walClose (WAL.walRun (WAL.initWal true) [("a", true), ("b", false)])).file = [] := by
  refine ⟨by decide, by decide, by decide, by decide⟩

namespace Eng

/-- A log entry as far as the ingestion gate is concerned: severity value
(LogLevel is an IntEnum: TRACE=5 < DEBUG=10 < INFO=20 < WARN=30 < ERROR=40
< CRITICAL=50 < OFF=100) and message. -/
structure Entry where
  level : Nat
  message : String
deriving DecidableEq

/-- The configuration fields of LoggerConfig that Logger.log reads.
queueSize 0 models a queue.Queue with maxsize <= 0, which is unbounded. -/
structure LogCfg where
  minLevel : Nat
  asyncMode : Bool
  queueSize : Nat
deriving DecidableEq

/-- The Logger state touched by log and _write_batch: the bounded queue and
the three metrics counters. -/
structure LogState where
  queue : List Entry
  logged : Nat
  dropped : Nat
  processed : Nat
deriving DecidableEq

/-- queue.Queue.put_nowait: appends when the queue has room, raises
queue.Full (none) when it is at capacity; maxsize <= 0 means unbounded. -/
def putNowait (cfg : LogCfg) (q : List Entry) (e : Entry) : Option (List Entry) :=
  if cfg.queueSize = 0 ∨ q.length < cfg.queueSize then some (q ++ [e]) else none

/-- One writer.write(entry) call: the oracle raises says whether this
writer raises on this entry. -/
def tryWrite (raises : Nat → Entry → Bool) (w : Nat) (e : Entry) : Except String Unit :=
  if raises w e then Except.error "writer error" else Except.ok ()

/-- Inner loop of Logger._write_batch for one entry: every registered
writer is attempted in order and an exception from one write is caught
(the except branch prints and records the error), so the loop continues
with the next writer either way.  The returned list records the write
attempts delivered to writers. -/
def writeEntryLoop (raises : Nat → Entry → Bool) (e : Entry) :
    List Nat → List (Nat × Entry) → Except String (List (Nat × Entry))
  | [], acc => Except.ok acc
  | w :: ws, acc =>
    match tryWrite raises w e with
    | Except.ok _ => writeEntryLoop raises e ws (acc ++ [(w, e)])
    | Except.error _ => writeEntryLoop raises e ws (acc ++ [(w, e)])

/-- Logger._write_batch (no router attached, crash safety off): each entry
of the batch goes to every writer and the processed counter advances once
per entry.  An uncaught exception would surface as Except.error. -/
def writeBatch (writers : List Nat) (raises : Nat → Entry → Bool) (st : LogState) :
    List Entry → List (Nat × Entry) → Except String (LogState × List (Nat × Entry))
  | [], acc => Except.ok (st, acc)
  | e :: es, acc =>
    match writeEntryLoop raises e writers acc with
    | Except.ok acc' =>
      writeBatch writers raises { st with processed := st.processed + 1 } es acc'
    | Except.error err => Except.error err

/-- Logger.log: level gate, entry construction, filter predicates in
registration order (first False vetoes), then async enqueue with
drop-and-count on queue.Full, or the synchronous batch write path. -/
def log (cfg : LogCfg) (writers : List Nat) (raises : Nat → Entry → Bool)
    (filters : List (Entry → Bool)) (st : LogState) (level : Nat) (msg : String) :
    Except String LogState :=
  if level < cfg.minLevel then Except.ok st
  else
    let e : Entry := ⟨level, msg⟩
    if filters.all (fun f => f e) then
      if cfg.asyncMode then
        match putNowait cfg st.queue e with
        | some q => Except.ok { st with queue := q, logged := st.logged + 1 }
        | none => Except.ok { st with dropped := st.dropped + 1 }
      else
        match writeBatch writers raises st [e] [] with
        | Except.ok (st', _) => Except.ok { st' with logged := st'.logged + 1 }
        | Except.error err => Except.error err
    else Except.ok st

theorem writeEntryLoop_spec (raises : Nat → Entry → Bool) (e : Entry) :
    ∀ (ws : List Nat) (acc : List (Nat × Entry)),
    writeEntryLoop raises e ws acc = Except.ok (acc ++ ws.map (fun w => (w, e))) := by
  intro ws
  induction ws with
  | nil => intro acc; simp [writeEntryLoop]
  | cons w ws ih =>
    intro acc
    rw [writeEntryLoop]
    cases hr : tryWrite raises w e with
    | ok u => rw [ih]; simp
    | error err => rw [ih]; simp

theorem writeBatch_spec (writers : List Nat) (raises : Nat → Entry → Bool) :
    ∀ (es : List Entry) (st : LogState) (acc : List (Nat × Entry)),
    writeBatch writers raises st es acc =
      Except.ok ({ st with processed := st.processed + es.length },
        acc ++ es.flatMap (fun e => writers.map (fun w => (w, e)))) := by
  intro es
  induction es with
  | nil =>
    intro st acc
    simp [writeBatch]
  | cons e es ih =>
    intro st acc
    rw [writeBatch]
    simp only [writeEntryLoop_spec]
    rw [ih]
    simp [List.append_assoc]
    omega

end Eng

/-- Claim C4: a batch write delivers every entry of the batch to every
registered writer in order, independently of which writer raises on which
entry (the exception is caught per write attempt), no exception propagates
out of the batch write, and a synchronous-mode Logger.log call therefore
never raises due to a writer failure. -/
theorem C4_write_batch_catches_per_event (writers : List Nat)
    (raises : Nat → Eng.Entry → Bool) (st : Eng.LogState) (batch : List Eng.Entry) :
    Eng.writeBatch writers raises st batch [] =
      Except.ok ({ st with processed := st.processed + batch.length },
        batch.flatMap (fun e => writers.map (fun w => (w, e)))) ∧
    ∀ (cfg : Eng.LogCfg) (filters : List (Eng.Entry → Bool)) (level : Nat) (msg : String),
      cfg.asyncMode = false →
      ∃ st', Eng.log cfg writers raises filters st level msg = Except.ok st' := by
  constructor
  · rw [Eng.writeBatch_spec]
    simp
  · intro cfg filters level msg hasync
    unfold Eng.log
    by_cases h1 : level < cfg.minLevel
    · exact ⟨st, by rw [if_pos h1]⟩
    · rw [if_neg h1]
      by_cases h2 : filters.all (fun f => f ⟨level, msg⟩)
      · rw [if_pos h2, hasync]
        rw [Eng.writeBatch_spec]
        simp
      · rw [if_neg h2]
        exact ⟨st, rfl⟩

/-- Claim C4 witness at a concrete batch with a raising writer: both
writers receive both entries and log in synchronous mode returns without
raising. -/
theorem C4_write_batch_catches_per_event_witness :
    Eng.writeBatch [1, 2] (fun w _ => w = 1) ⟨[], 0, 0, 0⟩
        [⟨40, "x"⟩, ⟨20, "y"⟩] [] =
      Except.ok (⟨[], 0, 0, 2⟩,
        [(1, ⟨40, "x"⟩), (2, ⟨40, "x"⟩), (1, ⟨20, "y"⟩), (2, ⟨20, "y"⟩)]) ∧
    ∃ st', Eng.log ⟨20, false, 5⟩ [1, 2] (fun w _ => w = 1) [] ⟨[], 0, 0, 0⟩ 40 "x" =
      Except.ok st' := by
  have h := C4_write_batch_catches_per_event [1, 2] (fun w _ => w = 1) ⟨[], 0, 0, 0⟩
    [⟨40, "x"⟩, ⟨20, "y"⟩]
  exact ⟨h.1, h.2 ⟨20, false, 5⟩ [] 40 "x" rfl⟩

/-- Claim C3: in async mode, a Logger.log call never raises and either
(a) the event is below the minimum severity or vetoed by a registered
filter, and all three counters (logged, dropped, processed) are unchanged,
or (b) exactly one of logged (successful non-blocking enqueue, which
appends the entry to the queue) or dropped (queue full) increases by
exactly one while the other two counters are unchanged. -/
theorem C3_log_async_metrics (cfg : Eng.LogCfg) (writers : List Nat)
    (raises : Nat → Eng.Entry → Bool) (filters : List (Eng.Entry → Bool))
    (st : Eng.LogState) (level : Nat) (msg : String)
    (hasync : cfg.asyncMode = true) :
    ∃ st', Eng.log cfg writers raises filters st level msg = Except.ok st' ∧
      (((level < cfg.minLevel ∨ ∃ f ∈ filters, f ⟨level, msg⟩ = false) ∧
          st'.logged = st.logged ∧ st'.dropped = st.dropped ∧
          st'.processed = st.processed) ∨
        ((cfg.queueSize = 0 ∨ st.queue.length < cfg.queueSize) ∧
          st'.queue = st.queue ++ [⟨level, msg⟩] ∧
          st'.logged = st.logged + 1 ∧ st'.dropped = st.dropped ∧
          st'.processed = st.processed) ∨
        (¬ (cfg.queueSize = 0 ∨ st.queue.length < cfg.queueSize) ∧
          st'.logged = st.logged ∧ st'.dropped = st.dropped + 1 ∧
          st'.processed = st.processed)) := by
  unfold Eng.log
  by_cases h1 : level < cfg.minLevel
  · rw [if_pos h1]
    exact ⟨st, rfl, Or.inl ⟨Or.inl h1, rfl, rfl, rfl⟩⟩
  · rw [if_neg h1]
    by_cases h2 : filters.all (fun f => f ⟨level, msg⟩)
    · rw [if_pos h2, hasync]
      unfold Eng.putNowait
      by_cases h3 : cfg.queueSize = 0 ∨ st.queue.length < cfg.queueSize
      · rw [if_pos h3]
        exact ⟨_, rfl, Or.inr (Or.inl ⟨h3, rfl, rfl, rfl, rfl⟩)⟩
      · rw [if_neg h3]
        exact ⟨_, rfl, Or.inr (Or.inr ⟨h3, rfl, rfl, rfl⟩)⟩
    · rw [if_neg h2]
      refine ⟨st, rfl, Or.inl ⟨Or.inr ?_, rfl, rfl, rfl⟩⟩
      rw [List.all_eq_true] at h2
      push_neg at h2
      obtain ⟨f, hf, hfe⟩ := h2
      exact ⟨f, hf, by simpa using hfe⟩

/-- Claim C3 witness: a full queue of capacity 1 in async mode increments
only the dropped counter. -/
theorem C3_log_async_metrics_witness :
    ∃ st', Eng.log ⟨20, true, 1⟩ [] (fun _ _ => false) [] ⟨[⟨20, "q"⟩], 1, 0, 0⟩ 30 "m" =
        Except.ok st' ∧
      (((30 < 20 ∨ ∃ f ∈ ([] : List (Eng.Entry → Bool)), f ⟨30, "m"⟩ = false) ∧
          st'.logged = 1 ∧ st'.dropped = 0 ∧ st'.processed = 0) ∨
        (((1 : Nat) = 0 ∨ ([⟨20, "q"⟩] : List Eng.Entry).length < 1) ∧
          st'.queue = [⟨20, "q"⟩] ++ [⟨30, "m"⟩] ∧
          st'.logged = 1 + 1 ∧ st'.dropped = 0 ∧ st'.processed = 0) ∨
        (¬ ((1 : Nat) = 0 ∨ ([⟨20, "q"⟩] : List Eng.Entry).length < 1) ∧
          st'.logged = 1 ∧ st'.dropped = 0 + 1 ∧ st'.processed = 0)) :=
  C3_log_async_metrics ⟨20, true, 1⟩ [] (fun _ _ => false) [] ⟨[⟨20, "q"⟩], 1, 0, 0⟩
    30 "m" rfl

namespace Sig

/-- A component registered with the SignalManager, as _emergency_flush_all
sees it: an identity, which of the two flush capabilities it has (hasattr
probes for emergency_flush then flush), and whether the chosen call
raises. -/
structure Comp where
  cid : Nat
  hasEmergency : Bool
  hasFlush : Bool
  raises : Bool
deriving DecidableEq

/-- The flush call SignalManager._emergency_flush_all makes on one
component: emergency_flush when present, else flush when present, else
nothing.  The Bool in the result marks emergency_flush (true) versus
flush (false); the raises field is returned so the caller models the
try/except. -/
def flushCall (c : Comp) : Option ((Nat × Bool) × Bool) :=
  if c.hasEmergency then some ((c.cid, true), c.raises)
  else if c.hasFlush then some ((c.cid, false), c.raises)
  else none

/-- SignalManager._emergency_flush_all over the registry list: each
component's flush is attempted; an exception from one component is caught
(except Exception: pass) so iteration continues.  Returns the calls made,
in registry order. -/
def emergencyFlushAll : List Comp → List (Nat × Bool)
  | [] => []
  | c :: cs =>
    match flushCall c with
    | some (call, _raised) => call :: emergencyFlushAll cs
    | none => emergencyFlushAll cs

theorem flushCall_fst {c : Comp} {cr : (Nat × Bool) × Bool}
    (hf : flushCall c = some cr) : cr.1.1 = c.cid := by
  unfold flushCall at hf
  split_ifs at hf
  · injection hf with hf
    rw [← hf]
  · injection hf with hf
    rw [← hf]

theorem emergencyFlushAll_sub {comps : List Comp} {x : Nat × Bool}
    (h : x ∈ emergencyFlushAll comps) : x.1 ∈ comps.map Comp.cid := by
  induction comps with
  | nil => cases h
  | cons c cs ih =>
    rw [emergencyFlushAll] at h
    rw [List.map_cons]
    cases hf : flushCall c with
    | some cr =>
      rw [hf] at h
      dsimp only at h
      rcases List.mem_cons.mp h with h1 | h2
      · subst h1
        exact List.mem_cons.mpr (Or.inl (flushCall_fst hf))
      · exact List.mem_cons_of_mem _ (ih h2)
    | none =>
      rw [hf] at h
      dsimp only at h
      exact List.mem_cons_of_mem _ (ih h)

end Sig

/-- Claim C5: one invocation of the emergency-flush fan-out calls each
registered component's emergencyFlush (or flush, when only that is
present) exactly once, in registry order, and a component whose flush
raises does not prevent any other component from being flushed — the
calls made do not depend on the raises flags at all. -/
theorem C5_emergency_flush_each_component_once (comps : List Sig.Comp)
    (hnodup : (comps.map Sig.Comp.cid).Nodup) :
    ∀ c ∈ comps, (c.hasEmergency ∨ c.hasFlush) →
      ((Sig.emergencyFlushAll comps).map Prod.fst).count c.cid = 1 := by
  induction comps with
  | nil => intro c hc; cases hc
  | cons d cs ih =>
    rw [List.map_cons, List.nodup_cons] at hnodup
    intro c hc hcap
    rcases List.mem_cons.mp hc with hceq | hcs
    · subst hceq
      have hcall : ∃ r : Bool × Bool, Sig.flushCall c = some ((c.cid, r.1), r.2) := by
        unfold Sig.flushCall
        rcases hcap with h | h
        · rw [if_pos h]
          exact ⟨(true, c.raises), rfl⟩
        · by_cases he : c.hasEmergency
          · rw [if_pos he]
            exact ⟨(true, c.raises), rfl⟩
          · rw [if_neg he, if_pos h]
            exact ⟨(false, c.raises), rfl⟩
      obtain ⟨r, hr⟩ := hcall
      rw [Sig.emergencyFlushAll, hr]
      dsimp only
      rw [List.map_cons, List.count_cons]
      have hzero : ((Sig.emergencyFlushAll cs).map Prod.fst).count c.cid = 0 := by
        rw [List.count_eq_zero]
        intro hmem
        obtain ⟨x, hx, hx2⟩ := List.mem_map.mp hmem
        have := Sig.emergencyFlushAll_sub hx
        rw [hx2] at this
        exact hnodup.1 this
      rw [hzero]
      simp
    · have hne : d.cid ≠ c.cid := by
        intro he
        exact hnodup.1 (he ▸ List.mem_map_of_mem Sig.Comp.cid hcs)
      have hrec := ih hnodup.2 c hcs hcap
      rw [Sig.emergencyFlushAll]
      cases hf : Sig.flushCall d with
      | some cr =>
        have hfst : cr.1.1 = d.cid := Sig.flushCall_fst hf
        dsimp only
        rw [List.map_cons, List.count_cons, hrec]
        simp [hfst, hne]
      | none => exact hrec

/-- Claim C5 witness: three registered components where the middle one's
emergencyFlush raises; all three are flushed exactly once. -/
theorem C5_emergency_flush_each_component_once_witness :
    ((Sig.emergencyFlushAll
      [⟨1, true, true, false⟩, ⟨2, true, false, true⟩, ⟨3, false, true, false⟩]).map
        Prod.fst).count 1 = 1 ∧
    ((Sig.emergencyFlushAll
      [⟨1, true, true, false⟩, ⟨2, true, false, true⟩, ⟨3, false, true, false⟩]).map
        Prod.fst).count 2 = 1 ∧
    ((Sig.emergencyFlushAll
      [⟨1, true, true, false⟩, ⟨2, true, false, true⟩, ⟨3, false, true, false⟩]).map
        Prod.fst).count 3 = 1 := by
  refine ⟨?_, ?_, ?_⟩
  · exact C5_emergency_flush_each_component_once _ (by decide) ⟨1, true, true, false⟩
      (by decide) (Or.inl rfl)
  · exact C5_emergency_flush_each_component_once _ (by decide) ⟨2, true, false, true⟩
      (by simp) (Or.inl rfl)
  · exact C5_emergency_flush_each_component_once _ (by decide) ⟨3, false, true, false⟩
      (by simp) (Or.inr rfl)

namespace ABW

/-- Throughput thresholds of AdaptiveBatchWriter (entries/second).  Rates
are modelled as rationals; the float arithmetic of the source is exact on
the integer batch sizes involved (the constants 1.5 and 0.75 are exact
binary floats and int() truncates toward zero, so int(m * 1.5) = 3m/2 and
int(m * 0.75) = 3m/4 in Nat division for every realistic m). -/
def HIGH_THROUGHPUT_THRESHOLD : Rat := 1000

def LOW_THROUGHPUT_THRESHOLD : Rat := 100

/-- The AdaptiveBatchWriter state touched by _update_batch_size:
_recent_rates, max_batch_size, min_batch_size, _max_batch_size_limit. -/
structure AState where
  recentRates : List Rat
  maxBatchSize : Nat
  minBatchSize : Nat
  maxLimit : Nat
deriving DecidableEq

/-- The recent-rate window after appending the current rate and trimming
to the last 12 samples (self._recent_rates[-max_samples:]). -/
def trimmedRates (st : AState) (currentRate : Rat) : List Rat :=
  if (st.recentRates ++ [currentRate]).length > 12 then
    (st.recentRates ++ [currentRate]).drop ((st.recentRates ++ [currentRate]).length - 12)
  else st.recentRates ++ [currentRate]

/-- The average rate _update_batch_size compares with the thresholds. -/
def avgRate (st : AState) (currentRate : Rat) : Rat :=
  (trimmedRates st currentRate).sum / ((trimmedRates st currentRate).length : Rat)

/-- AdaptiveBatchWriter._update_batch_size: append the current rate, keep
the last 12 samples, and move max_batch_size by the throughput rule —
min(limit, int(m*1.5)) above the high threshold, max(min_batch_size,
int(m*0.75)) below the low threshold, unchanged in between. -/
def updateBatchSize (st : AState) (currentRate : Rat) : AState :=
  if trimmedRates st currentRate = [] then
    { st with recentRates := trimmedRates st currentRate }
  else if avgRate st currentRate > HIGH_THROUGHPUT_THRESHOLD then
    { st with
      recentRates := trimmedRates st currentRate,
      maxBatchSize := min st.maxLimit (3 * st.maxBatchSize / 2) }
  else if avgRate st currentRate < LOW_THROUGHPUT_THRESHOLD then
    { st with
      recentRates := trimmedRates st currentRate,
      maxBatchSize := max st.minBatchSize (3 * st.maxBatchSize / 4) }
  else
    { st with recentRates := trimmedRates st currentRate }

theorem trimmedRates_ne_nil (st : AState) (r : Rat) : trimmedRates st r ≠ [] := by
  apply List.ne_nil_of_length_pos
  unfold trimmedRates
  split_ifs with h
  · simp only [List.length_drop]
    simp only [List.length_append, List.length_cons, List.length_nil] at h ⊢
    omega
  · simp

end ABW

/-- Claim C9 (amended): every adjustment keeps max_batch_size within the
configured floor and ceiling and moves it with observed throughput: above
the high threshold it never exceeds the ceiling and is strictly raised
unless already at the ceiling — OR unless max_batch_size is 1, where the
integer truncation int(1 * 1.5) = 1 leaves it unchanged; below the low
threshold it never falls under the floor and is strictly lowered unless
already at the floor; between the thresholds it is unchanged. -/
theorem C9_update_batch_size_bounds (st : ABW.AState) (r : Rat)
    (hmin : 1 ≤ st.minBatchSize)
    (h1 : st.minBatchSize ≤ st.maxBatchSize)
    (h2 : st.maxBatchSize ≤ st.maxLimit) :
    (st.minBatchSize ≤ (ABW.updateBatchSize st r).maxBatchSize ∧
      (ABW.updateBatchSize st r).maxBatchSize ≤ st.maxLimit) ∧
    (ABW.avgRate st r > ABW.HIGH_THROUGHPUT_THRESHOLD →
      (ABW.updateBatchSize st r).maxBatchSize ≤ st.maxLimit ∧
      (2 ≤ st.maxBatchSize → st.maxBatchSize < st.maxLimit →
        st.maxBatchSize < (ABW.updateBatchSize st r).maxBatchSize)) ∧
    (ABW.avgRate st r < ABW.LOW_THROUGHPUT_THRESHOLD →
      st.minBatchSize ≤ (ABW.updateBatchSize st r).maxBatchSize ∧
      (st.minBatchSize < st.maxBatchSize →
        (ABW.updateBatchSize st r).maxBatchSize < st.maxBatchSize)) ∧
    (¬ ABW.avgRate st r > ABW.HIGH_THROUGHPUT_THRESHOLD →
      ¬ ABW.avgRate st r < ABW.LOW_THROUGHPUT_THRESHOLD →
      (ABW.updateBatchSize st r).maxBatchSize = st.maxBatchSize) := by
  have hne := ABW.trimmedRates_ne_nil st r
  by_cases hH : ABW.avgRate st r > ABW.HIGH_THROUGHPUT_THRESHOLD
  · have heq : (ABW.updateBatchSize st r).maxBatchSize =
        min st.maxLimit (3 * st.maxBatchSize / 2) := by
      unfold ABW.updateBatchSize
      rw [if_neg hne, if_pos hH]
    have hHL : ¬ ABW.avgRate st r < ABW.LOW_THROUGHPUT_THRESHOLD := by
      unfold ABW.HIGH_THROUGHPUT_THRESHOLD at hH
      unfold ABW.LOW_THROUGHPUT_THRESHOLD
      intro hc
      linarith
    refine ⟨⟨?_, ?_⟩, fun _ => ⟨?_, fun hm2 hlim => ?_⟩,
      fun hL => absurd hL hHL, fun hnH _ => absurd hH hnH⟩ <;>
      rw [heq] <;> omega
  · by_cases hL : ABW.avgRate st r < ABW.LOW_THROUGHPUT_THRESHOLD
    · have heq : (ABW.updateBatchSize st r).maxBatchSize =
          max st.minBatchSize (3 * st.maxBatchSize / 4) := by
        unfold ABW.updateBatchSize
        rw [if_neg hne, if_neg hH, if_pos hL]
      refine ⟨⟨?_, ?_⟩, fun hc => absurd hc hH, fun _ => ⟨?_, fun hlt => ?_⟩,
        fun _ hnL => absurd hL hnL⟩ <;>
        rw [heq] <;> omega
    · have heq : (ABW.updateBatchSize st r).maxBatchSize = st.maxBatchSize := by
        unfold ABW.updateBatchSize
        rw [if_neg hne, if_neg hH, if_neg hL]
      refine ⟨⟨?_, ?_⟩, fun hc => absurd hc hH, fun hc => absurd hc hL,
        fun _ _ => heq⟩ <;>
        rw [heq] <;> omega

/-- Claim C9 witness: from max_batch_size 10 (floor 10, ceiling 500), an
average rate of 2000 entries/second strictly raises the batch size within
bounds. -/
theorem C9_update_batch_size_bounds_witness :
    ((10 ≤ (ABW.updateBatchSize ⟨[], 10, 10, 500⟩ 2000).maxBatchSize ∧
      (ABW.updateBatchSize ⟨[], 10, 10, 500⟩ 2000).maxBatchSize ≤ 500) ∧
    (ABW.avgRate ⟨[], 10, 10, 500⟩ 2000 > ABW.HIGH_THROUGHPUT_THRESHOLD →
      (ABW.updateBatchSize ⟨[], 10, 10, 500⟩ 2000).maxBatchSize ≤ 500 ∧
      (2 ≤ 10 → 10 < 500 →
        10 < (ABW.updateBatchSize ⟨[], 10, 10, 500⟩ 2000).maxBatchSize)) ∧
    (ABW.avgRate ⟨[], 10, 10, 500⟩ 2000 < ABW.LOW_THROUGHPUT_THRESHOLD →
      10 ≤ (ABW.updateBatchSize ⟨[], 10, 10, 500⟩ 2000).maxBatchSize ∧
      (10 < 10 →
        (ABW.updateBatchSize ⟨[], 10, 10, 500⟩ 2000).maxBatchSize < 10)) ∧
    (¬ ABW.avgRate ⟨[], 10, 10, 500⟩ 2000 > ABW.HIGH_THROUGHPUT_THRESHOLD →
      ¬ ABW.avgRate ⟨[], 10, 10, 500⟩ 2000 < ABW.LOW_THROUGHPUT_THRESHOLD →
      (ABW.updateBatchSize ⟨[], 10, 10, 500⟩ 2000).maxBatchSize = 10)) ∧
    ABW.avgRate ⟨[], 10, 10, 500⟩ 2000 > ABW.HIGH_THROUGHPUT_THRESHOLD ∧
    (ABW.updateBatchSize ⟨[], 10, 10, 500⟩ 2000).maxBatchSize = 15
 := by
  have havg : ABW.avgRate ⟨[], 10, 10, 500⟩ 2000 = 2000 := by
    norm_num [ABW.avgRate, ABW.trimmedRates]
  have hgt : ABW.avgRate ⟨[], 10, 10, 500⟩ 2000 > ABW.HIGH_THROUGHPUT_THRESHOLD := by
    rw [havg]
    unfold ABW.HIGH_THROUGHPUT_THRESHOLD
    norm_num
  refine ⟨C9_update_batch_size_bounds ⟨[], 10, 10, 500⟩ 2000 (by decide) (by decide)
    (by decide), hgt, ?_⟩
  unfold ABW.updateBatchSize
  rw [if_neg (ABW.trimmedRates_ne_nil _ _), if_pos hgt]
  rfl

/-- Counterexample to claim C9 as stated: with max_batch_size 1 (floor 1,
ceiling 500) and average rate 2000 > high threshold, the claim requires a
strictly larger new size since 1 is not the ceiling, but
int(1 * 1.5) = 1, so min(500, 1) = 1 and the size does not change. -/
theorem C9_no_increase_at_one_counterexample :
    ABW.avgRate ⟨[], 1, 1, 500⟩ 2000 > ABW.HIGH_THROUGHPUT_THRESHOLD ∧
    (1 : Nat) < 500 ∧
    (ABW.updateBatchSize ⟨[], 1, 1, 500⟩ 2000).maxBatchSize = 1 := by
  have havg : ABW.avgRate ⟨[], 1, 1, 500⟩ 2000 = 2000 := by
    norm_num [ABW.avgRate, ABW.trimmedRates]
  have hgt : ABW.avgRate ⟨[], 1, 1, 500⟩ 2000 > ABW.HIGH_THROUGHPUT_THRESHOLD := by
    rw [havg]
    unfold ABW.HIGH_THROUGHPUT_THRESHOLD
    norm_num
  refine ⟨hgt, by norm_num, ?_⟩
  unfold ABW.updateBatchSize
  rw [if_neg (ABW.trimmedRates_ne_nil _ _), if_pos hgt]
  rfl
